import Mathlib

/-!
# Verification of the KaraokeApp SRT parser and audio mixing engine

Shallow embedding of the two core components of the repository:

* the SRT lyric parser `parseSRT` / `parseTime` of `src/utils/srtParser.ts`
  (file `src/unnamed/part_002`), and
* the WAV mixing/encoding pipeline `mixAudio` / `encodeWAVOptimized` /
  `floatTo16BitPCM` embedded in `src/src/components/AudioMixer.tsx`.

JavaScript strings are modelled as `List Char` (code points); JavaScript
numbers appearing in the parser are modelled as `Option Int`, where `none`
plays the role of `NaN` (the parser only ever produces integer values or
`NaN`; non-integer numeric literals do not occur in timestamp fields, and
the embedding maps the exotic inputs that JavaScript would parse as
fractional, hexadecimal or exponent-form numbers to `NaN` as well).
Audio samples are modelled as rationals `ℚ`, idealizing IEEE doubles; the
scaling factors 0.7, 1.5, 32768 and 32767 of the source are exact in this
model.  All definitions are written to be executable by kernel reduction
(structural or fuel-based recursion, no well-founded fixpoints on the
evaluation paths).
-/

namespace Karaoke

/-! ## JavaScript number semantics (`Option Int`, `none` = NaN) -/

/-- JS number restricted to the values produced by the SRT parser:
an integer, or NaN (`none`). -/
abbrev JSNum := Option Int

/-- JS addition: NaN propagates. -/
def jsAdd : JSNum → JSNum → JSNum
  | some a, some b => some (a + b)
  | _, _ => none

/-- JS subtraction: NaN propagates. -/
def jsSub : JSNum → JSNum → JSNum
  | some a, some b => some (a - b)
  | _, _ => none

/-- JS multiplication: NaN propagates. -/
def jsMul : JSNum → JSNum → JSNum
  | some a, some b => some (a * b)
  | _, _ => none

/-- JS `>` comparison: any comparison with NaN is false. -/
def jsGt : JSNum → JSNum → Bool
  | some a, some b => decide (b < a)
  | _, _ => false

/-- JS `<=` comparison: any comparison with NaN is false. -/
def jsLe : JSNum → JSNum → Bool
  | some a, some b => decide (a ≤ b)
  | _, _ => false

/-! ## JavaScript string primitives on `List Char` -/

/-- The whitespace characters stripped by `String.prototype.trim`
(restricted to the ASCII range; the exotic Unicode space code points
never occur in the inputs considered here). -/
def isJsWs (c : Char) : Bool :=
  c == ' ' || c == '\t' || c == '\n' || c == '\r' || c == '\x0B' || c == '\x0C'

/-- `String.prototype.trim`. -/
def trim (l : List Char) : List Char :=
  ((l.dropWhile isJsWs).reverse.dropWhile isJsWs).reverse

/-- `String.prototype.split` with a single-character separator
(as used with `'\n'`, `','` and `':'` in the parser).  Mirrors the JS
semantics: the empty string splits to `[""]`, adjacent separators produce
empty fields. -/
def splitChar (sep : Char) : List Char → List (List Char)
  | [] => [[]]
  | c :: rest =>
    if c = sep then [] :: splitChar sep rest
    else
      match splitChar sep rest with
      | [] => [[c]]
      | r :: rs => (c :: r) :: rs

/-- Split off the part of `l` before the first occurrence of the
(non-empty) separator `sep`, together with the remainder after the
separator; `none` when `sep` does not occur. -/
def breakOnSep (sep : List Char) : List Char → Option (List Char × List Char)
  | [] => if sep = [] then some ([], []) else none
  | c :: rest =>
    if sep.isPrefixOf (c :: rest) then some ([], (c :: rest).drop sep.length)
    else
      match breakOnSep sep rest with
      | none => none
      | some (a, b) => some (c :: a, b)

/-- Fuelled worker for multi-character `String.prototype.split`
(each step consumes at least one character of input, so fuel
`l.length + 1` is always sufficient). -/
def splitSeqFuel (sep : List Char) : Nat → List Char → List (List Char)
  | 0, l => [l]
  | fuel + 1, l =>
    match breakOnSep sep l with
    | none => [l]
    | some (a, b) => a :: splitSeqFuel sep fuel b

/-- `String.prototype.split` with a multi-character separator. -/
def jsSplitStr (sep l : List Char) : List (List Char) :=
  splitSeqFuel sep (l.length + 1) l

/-- The separator `' --> '` of SRT timing lines. -/
def arrowSep : List Char := [' ', '-', '-', '>', ' ']

/-- `timeLine.split(' --> ')`. -/
def splitArrow (l : List Char) : List (List Char) :=
  jsSplitStr arrowSep l

/-- Decimal value of a list of digit characters (the value computed by
`Number` / `parseInt` on an all-digit string). -/
def digitsVal (l : List Char) : Nat :=
  l.foldl (fun a c => a * 10 + (c.toNat - 48)) 0

/-- JS `Number(string)` restricted to the integer fragment: whitespace is
trimmed, the empty string is `0`, an optional sign followed by decimal
digits is its value, everything else is mapped to NaN (fractional,
hexadecimal and exponent forms, which never occur in timestamp fields,
are conflated with NaN). -/
def jsNumber (s : List Char) : JSNum :=
  let t := trim s
  if t = [] then some 0
  else if t.headD ' ' = '-' then
    if t.tail ≠ [] ∧ t.tail.all Char.isDigit then some (-(digitsVal t.tail : Int)) else none
  else if t.headD ' ' = '+' then
    if t.tail ≠ [] ∧ t.tail.all Char.isDigit then some (digitsVal t.tail) else none
  else if t.all Char.isDigit then some (digitsVal t) else none

/-- JS `parseInt(string)` restricted to base 10: leading whitespace is
skipped, an optional sign and then the longest digit prefix is read; NaN
when there is no digit (the `0x` prefix form is conflated with its
digit-prefix reading, which never occurs in SRT millisecond fields). -/
def jsParseInt (s : List Char) : JSNum :=
  let t := s.dropWhile isJsWs
  if t.headD ' ' = '-' then
    let ds := t.tail.takeWhile Char.isDigit
    if ds = [] then none else some (-(digitsVal ds : Int))
  else if t.headD ' ' = '+' then
    let ds := t.tail.takeWhile Char.isDigit
    if ds = [] then none else some (digitsVal ds)
  else
    let ds := t.takeWhile Char.isDigit
    if ds = [] then none else some (digitsVal ds)

/-! ## The SRT parser (`src/unnamed/part_002`) -/

/-- A parsed lyric line; mirrors the `LyricLine` interface of the source
(`id` is the raw identifier string, times are JS numbers in
milliseconds, `isInstrumental` marks synthesized break segments). -/
structure LyricLine where
  id : List Char
  startTime : JSNum
  endTime : JSNum
  text : List Char
  isInstrumental : Bool
deriving DecidableEq

instance : Inhabited LyricLine := ⟨⟨[], some 0, some 0, [], false⟩⟩

/-- `parseTime` of the source: split on `','`, read the millisecond part
with `parseInt` (a falsy part gives `0`), split the `HH:MM:SS` part on
`':'`, map `Number` over the components (a missing component behaves as
NaN in the arithmetic), and combine. -/
def parseTime (timeStr : List Char) : JSNum :=
  if timeStr = [] then some 0
  else
    let parts := splitChar ',' timeStr
    let hms := parts.getD 0 []
    let ms : JSNum :=
      match parts.get? 1 with
      | some p => if p = [] then some 0 else jsParseInt p
      | none => some 0
    let comps := (splitChar ':' hms).map jsNumber
    let h := comps.getD 0 none
    let m := comps.getD 1 none
    let s := comps.getD 2 none
    jsAdd (jsMul (jsAdd (jsAdd (jsMul h (some 3600)) (jsMul m (some 60))) s) (some 1000)) ms

/-- Truthiness test for `endStr` (`undefined` and the empty string are
falsy). -/
def jsOptFalsy : Option (List Char) → Bool
  | none => true
  | some l => l == []

/-- Fuelled worker for the entry-scanning loop of `parseSRT` (the `for`
loop over `lines` with its `continue` / `break` / inner text loop).
Each iteration consumes at least one line, so fuel `lines.length + 1` is
always sufficient.  The translation of the control flow:

* a blank line is skipped (`continue`);
* a non-blank line is an id; the next line is the timing line;
* an absent or blank timing line is `break`: parsing stops, discarding
  everything after;
* a timing line whose `' --> '` split has a falsy first or second part is
  `continue`: the entry is skipped and scanning resumes at the line after
  the timing line;
* otherwise the following non-blank lines are the text block (joined from
  their trimmed forms with `'\n'`), an entry is emitted, and scanning
  resumes at the line after the text block. -/
def parseLoopF : Nat → List (List Char) → List LyricLine
  | 0, _ => []
  | _ + 1, [] => []
  | fuel + 1, rawLine :: rest =>
    let line := trim rawLine
    if line = [] then parseLoopF fuel rest
    else
      match rest with
      | [] => []
      | tlRaw :: rest2 =>
        let timeLine := trim tlRaw
        if timeLine = [] then []
        else
          let parts := splitArrow timeLine
          if parts.getD 0 [] == [] || jsOptFalsy (parts.get? 1) then parseLoopF fuel rest2
          else
            let startTime := parseTime (parts.getD 0 [])
            let endTime := parseTime (parts.getD 1 [])
            let texts := rest2.takeWhile (fun l => trim l != [])
            let rest3 := rest2.dropWhile (fun l => trim l != [])
            ⟨line, startTime, endTime, List.intercalate ['\n'] (texts.map trim), false⟩
              :: parseLoopF fuel rest3

/-- Newline normalization of the source (`replace(/\r\n/g, '\n')`
followed by `replace(/\r/g, '\n')`, fused into one pass). -/
def normalizeNewlines : List Char → List Char
  | [] => []
  | '\r' :: '\n' :: rest => '\n' :: normalizeNewlines rest
  | '\r' :: rest => '\n' :: normalizeNewlines rest
  | c :: rest => c :: normalizeNewlines rest

/-- The line list scanned by the parser. -/
def srtLines (s : String) : List (List Char) :=
  splitChar '\n' (normalizeNewlines s.data)

/-- The first pass of `parseSRT`: the entry list `lyrics` before gap
filling. -/
def parseEntries (s : String) : List LyricLine :=
  parseLoopF ((srtLines s).length + 1) (srtLines s)

/-- The display text of a synthesized instrumental break. -/
def noteChar : List Char := ['🎵']

/-- The id of the break synthesized after segment `i` (template literal
`break-i` of the source). -/
def breakId (i : Nat) : List Char :=
  "break-".data ++ (Nat.repr i).data

/-- The gap threshold of the source (`GAP_THRESHOLD = 10000` ms). -/
def GAP_THRESHOLD : Int := 10000

/-- The gap-filling second pass of `parseSRT`, with `i` the index of the
current segment in the original list: each segment is emitted, and when
the gap to the next segment exceeds `GAP_THRESHOLD` a synthetic
instrumental segment spanning the gap is emitted after it. -/
def fillGapsAux : Nat → List LyricLine → List LyricLine
  | _, [] => []
  | _, [a] => [a]
  | i, a :: b :: rest =>
    if jsGt (jsSub b.startTime a.endTime) (some GAP_THRESHOLD) then
      a :: ⟨breakId i, a.endTime, b.startTime, noteChar, true⟩ :: fillGapsAux (i + 1) (b :: rest)
    else
      a :: fillGapsAux (i + 1) (b :: rest)

/-- The gap-filling pass started at index 0. -/
def fillGaps (lyrics : List LyricLine) : List LyricLine :=
  fillGapsAux 0 lyrics

/-- `parseSRT` of the source: scan the normalized line list for entries,
then interleave synthetic instrumental-break segments into long gaps. -/
def parseSRT (s : String) : List LyricLine :=
  fillGaps (parseEntries s)

/-! Executable checks of the parser embedding against hand-traces of the
JavaScript code: timestamp arithmetic, a single well-formed entry, gap
insertion at 12 seconds, and no insertion at 5 seconds. -/

example : parseTime ("00:00:31,384").data = some 31384 := by decide

example : parseTime ("01:02:03,004").data = some 3723004 := by decide

example :
    parseSRT ("1\n00:00:01,000 --> 00:00:02,000\nhello") =
      [⟨['1'], some 1000, some 2000, "hello".data, false⟩] := by decide

example :
    parseSRT ("1\n00:00:01,000 --> 00:00:02,000\nhello\n\n2\n00:00:14,000 --> 00:00:15,000\nworld") =
      [⟨['1'], some 1000, some 2000, "hello".data, false⟩,
       ⟨"break-0".data, some 2000, some 14000, ['🎵'], true⟩,
       ⟨['2'], some 14000, some 15000, "world".data, false⟩] := by decide

example :
    parseSRT ("1\n00:00:01,000 --> 00:00:02,000\nhello\n\n2\n00:00:07,000 --> 00:00:08,000\nworld") =
      [⟨['1'], some 1000, some 2000, "hello".data, false⟩,
       ⟨['2'], some 7000, some 8000, "world".data, false⟩] := by decide

/-! ## The audio mixing engine (`src/src/components/AudioMixer.tsx`)

`mixAudio` decodes the two inputs, builds a 2-channel
`OfflineAudioContext` of length `max(songBuffer.length,
voiceBuffer.length)` frames at 22050 Hz, plays both decoded buffers from
time 0 through gain nodes (0.7 for the song, 1.5 for the voice), renders,
interleaves the two rendered channels and encodes the result as a 16-bit
PCM WAV.  The embedding takes the two *decoded* buffers as inputs (the
platform decoder is outside the repository).  Rendering is sample-exact
when a buffer's rate equals the context rate of 22050 Hz; for mismatched
rates the Web Audio resampler is implementation-defined and is modelled
here as nearest-sample position mapping (no theorem below depends on the
mismatched-rate content, only on lengths). -/

/-- A decoded audio buffer (Web Audio `AudioBuffer`): sample rate, the
per-channel sample data, and the frame count `length`. -/
structure AudioBuffer where
  sampleRate : Nat
  channels : List (List ℚ)
  length : Nat

/-- The target sample rate hard-coded in `mixAudio`. -/
def targetRate : Nat := 22050

/-- Channel `ch` of a buffer, with the Web Audio mono-to-stereo up-mix:
a request beyond the buffer's channel count reads channel 0. -/
def chanData (b : AudioBuffer) (ch : Nat) : List ℚ :=
  if ch < b.channels.length then b.channels.getD ch [] else b.channels.getD 0 []

/-- The contribution of a buffer source started at time 0 to output frame
`j` of the offline context: position mapping by the rate ratio (the
identity when `b.sampleRate = targetRate`), zero past the end of the
buffer. -/
def sourceSample (b : AudioBuffer) (ch j : Nat) : ℚ :=
  let pos := j * b.sampleRate / targetRate
  if pos < b.length then (chanData b ch).getD pos 0 else 0

/-- One rendered output sample: the song through gain 0.7 plus the voice
through gain 1.5, both scheduled at time 0, summed at the destination. -/
def renderSample (song voice : AudioBuffer) (ch j : Nat) : ℚ :=
  (7 / 10) * sourceSample song ch j + (3 / 2) * sourceSample voice ch j

/-- One rendered channel of `len` frames. -/
def renderChannel (song voice : AudioBuffer) (ch len : Nat) : List ℚ :=
  (List.range len).map (renderSample song voice ch)

/-- `interleave` of the source, for the equal-length channel pair of one
rendered buffer (the only call site). -/
def interleave (inputL inputR : List ℚ) : List ℚ :=
  (inputL.zip inputR).flatMap fun p => [p.1, p.2]

/-- The clamp to `[-1, 1]` of `floatTo16BitPCM`
(`Math.max(-1, Math.min(1, s))`). -/
def clamp1 (s : ℚ) : ℚ := max (-1) (min 1 s)

/-- The asymmetric scaling of `floatTo16BitPCM`
(`s < 0 ? s * 0x8000 : s * 0x7FFF`), applied to the clamped sample. -/
def scaled (s : ℚ) : ℚ := if s < 0 then s * 32768 else s * 32767

/-- Truncation toward zero of a rational, as performed by the
`ToIntegerOrInfinity` step of `DataView.prototype.setInt16`. -/
def truncQ (q : ℚ) : Int := q.num.tdiv q.den

/-- The wrap of an integer into the signed 16-bit range, as performed by
the `ToInt16` step of `DataView.prototype.setInt16`. -/
def toInt16wrap (v : Int) : Int :=
  if v % 65536 < 32768 then v % 65536 else v % 65536 - 65536

/-- The signed 16-bit value stored for one float sample by
`floatTo16BitPCM` via `setInt16`: clamp, scale asymmetrically, truncate,
wrap. -/
def pcm16 (s : ℚ) : Int := toInt16wrap (truncQ (scaled (clamp1 s)))

/-- The value the specification ascribes to a stored sample:
`clamp(s, -1, 1) * 32768` when negative and `* 32767` otherwise,
truncated to an integer (without the 16-bit wrap, which is never reached
from a clamped sample). -/
def pcmVal (s : ℚ) : Int := truncQ (scaled (clamp1 s))

/-- The two little-endian bytes stored for a signed 16-bit value. -/
def int16LE (v : Int) : List Nat :=
  [(v % 65536).toNat % 256, (v % 65536).toNat / 256]

/-- `floatTo16BitPCM`: the byte stream written at offset 44, two bytes
per sample. -/
def floatTo16BitPCM (input : List ℚ) : List Nat :=
  input.flatMap fun s => int16LE (pcm16 s)

/-- Little-endian bytes of `setUint16` (the value is reduced mod 2^16). -/
def u16 (n : Nat) : List Nat := [n % 256, n / 256 % 256]

/-- Little-endian bytes of `setUint32` (the value is reduced mod 2^32). -/
def u32 (n : Nat) : List Nat :=
  [n % 256, n / 256 % 256, n / 65536 % 256, n / 16777216 % 256]

/-- The 44-byte canonical WAV header written by `encodeWAVOptimized` for
`numSamples` samples (byte values of the `writeString` calls are the
ASCII codes of `RIFF`, `WAVE`, `fmt ` and `data`). -/
def wavHeader (numSamples numChannels sampleRate : Nat) : List Nat :=
  [82, 73, 70, 70]
    ++ u32 (36 + numSamples * 2)
    ++ [87, 65, 86, 69]
    ++ [102, 109, 116, 32]
    ++ u32 16
    ++ u16 1
    ++ u16 numChannels
    ++ u32 sampleRate
    ++ u32 (sampleRate * numChannels * 2)
    ++ u16 (numChannels * 2)
    ++ u16 16
    ++ [100, 97, 116, 97]
    ++ u32 (numSamples * 2)

/-- `encodeWAVOptimized`: header followed by the PCM sample bytes. -/
def encodeWAVOptimized (samples : List ℚ) (numChannels sampleRate : Nat) : List Nat :=
  wavHeader samples.length numChannels sampleRate ++ floatTo16BitPCM samples

/-- `mixAudio` on the two decoded buffers: output length is
`max(songBuffer.length, voiceBuffer.length)` frames, rendered at
22050 Hz on 2 channels, interleaved and encoded as stereo WAV. -/
def mixAudio (song voice : AudioBuffer) : List Nat :=
  let outputLength := max song.length voice.length
  let samples :=
    interleave (renderChannel song voice 0 outputLength)
      (renderChannel song voice 1 outputLength)
  encodeWAVOptimized samples 2 targetRate

/-- Little-endian 16-bit read from the byte list. -/
def readU16 (bytes : List Nat) (off : Nat) : Nat :=
  bytes.getD off 0 + 256 * bytes.getD (off + 1) 0

/-- Little-endian 32-bit read from the byte list. -/
def readU32 (bytes : List Nat) (off : Nat) : Nat :=
  bytes.getD off 0 + 256 * bytes.getD (off + 1) 0 + 65536 * bytes.getD (off + 2) 0
    + 16777216 * bytes.getD (off + 3) 0

/-- Signed little-endian 16-bit read from the byte list. -/
def readS16 (bytes : List Nat) (off : Nat) : Int :=
  if readU16 bytes off < 32768 then (readU16 bytes off : Int)
  else (readU16 bytes off : Int) - 65536

/-! ## Infrastructure: the gap-filling pass -/

/-- The gap-filling pass as the specification words it, positionally:
after the segment at index `i` (break ids offset by `k`), a synthetic
instrumental segment spanning exactly the gap to segment `i + 1` is
inserted when and only when that gap exceeds the threshold. -/
def gapFillSpecAux (k : Nat) (ls : List LyricLine) : List LyricLine :=
  (List.range ls.length).flatMap fun i =>
    ls.getD i default ::
      (match ls.get? (i + 1) with
       | none => []
       | some b =>
         if jsGt (jsSub b.startTime (ls.getD i default).endTime) (some GAP_THRESHOLD) then
           [⟨breakId (k + i), (ls.getD i default).endTime, b.startTime, noteChar, true⟩]
         else [])

/-- The positional description of the gap-filling pass, from index 0. -/
def gapFillSpec (ls : List LyricLine) : List LyricLine :=
  gapFillSpecAux 0 ls

theorem range_flatMap_succ {α : Type} (n : Nat) (f : Nat → List α) :
    (List.range (n + 1)).flatMap f = f 0 ++ (List.range n).flatMap (fun i => f (i + 1)) := by
  rw [List.range_succ_eq_map]
  simp [List.flatMap_cons, List.flatMap_map, Function.comp]

theorem gapFillSpecAux_cons₂ (k : Nat) (a b : LyricLine) (rest : List LyricLine) :
    gapFillSpecAux k (a :: b :: rest) =
      a ::
        ((if jsGt (jsSub b.startTime a.endTime) (some GAP_THRESHOLD) then
            [⟨breakId k, a.endTime, b.startTime, noteChar, true⟩]
          else []) ++ gapFillSpecAux (k + 1) (b :: rest)) := by
  simp only [gapFillSpecAux, List.length_cons]
  rw [range_flatMap_succ]
  simp only [Nat.zero_add, List.get?_cons_succ, List.get?_cons_zero, List.getD_cons_zero,
    List.getD_cons_succ, List.cons_append, Nat.add_zero, ← Nat.add_assoc, Nat.add_right_comm]

theorem fillGapsAux_eq_spec (ls : List LyricLine) : ∀ k, fillGapsAux k ls = gapFillSpecAux k ls := by
  induction ls with
  | nil => intro k; simp [fillGapsAux, gapFillSpecAux]
  | cons a tl ih =>
    intro k
    cases tl with
    | nil => simp [fillGapsAux, gapFillSpecAux, List.range_succ, List.flatMap_cons]
    | cons b rest =>
      rw [gapFillSpecAux_cons₂, ← ih (k + 1)]
      by_cases hgap : jsGt (jsSub b.startTime a.endTime) (some GAP_THRESHOLD) = true
      · simp [fillGapsAux, hgap]
      · simp only [Bool.not_eq_true] at hgap
        simp [fillGapsAux, hgap]

/-- Every element of the gap-filled list is an original segment or a
synthesized break whose fields are tied to a gap that passed the
threshold test. -/
theorem mem_fillGapsAux {l : LyricLine} :
    ∀ {ls : List LyricLine} {k : Nat}, l ∈ fillGapsAux k ls →
      l ∈ ls ∨
        ∃ (j : Nat) (a b : LyricLine),
          jsGt (jsSub b.startTime a.endTime) (some GAP_THRESHOLD) = true ∧
            l = ⟨breakId j, a.endTime, b.startTime, noteChar, true⟩ := by
  intro ls
  induction ls with
  | nil => intro k h; simp [fillGapsAux] at h
  | cons a tl ih =>
    intro k h
    cases tl with
    | nil =>
      simp [fillGapsAux] at h
      exact Or.inl (by simp [h])
    | cons b rest =>
      by_cases hgap : jsGt (jsSub b.startTime a.endTime) (some GAP_THRESHOLD) = true
      · simp only [fillGapsAux, hgap, if_true, List.mem_cons] at h
        rcases h with h | h | h
        · exact Or.inl (by simp [h])
        · exact Or.inr ⟨k, a, b, hgap, h⟩
        · rcases ih h with h2 | h2
          · exact Or.inl (List.mem_cons_of_mem a h2)
          · exact Or.inr h2
      · simp only [Bool.not_eq_true] at hgap
        simp only [fillGapsAux, hgap, Bool.false_eq_true, if_false, List.mem_cons] at h
        rcases h with h | h
        · exact Or.inl (by simp [h])
        · rcases ih h with h2 | h2
          · exact Or.inl (List.mem_cons_of_mem a h2)
          · exact Or.inr h2

/-- Unfolding equation for one step of the scanning loop. -/
theorem parseLoopF_cons (fuel : Nat) (rawLine : List Char) (rest : List (List Char)) :
    parseLoopF (fuel + 1) (rawLine :: rest) =
      (if trim rawLine = [] then parseLoopF fuel rest
       else
        match rest with
        | [] => []
        | tlRaw :: rest2 =>
          if trim tlRaw = [] then []
          else
            if (splitArrow (trim tlRaw)).getD 0 [] == []
                || jsOptFalsy ((splitArrow (trim tlRaw)).get? 1) then
              parseLoopF fuel rest2
            else
              ⟨trim rawLine, parseTime ((splitArrow (trim tlRaw)).getD 0 []),
                parseTime ((splitArrow (trim tlRaw)).getD 1 []),
                List.intercalate ['\n']
                  ((rest2.takeWhile (fun l => trim l != [])).map trim), false⟩
                :: parseLoopF fuel (rest2.dropWhile (fun l => trim l != []))) := rfl

/-- Every entry produced by the scanning loop has
`isInstrumental = false` (only the gap-filling pass synthesizes
instrumental segments). -/
theorem parseLoopF_not_instrumental :
    ∀ (fuel : Nat) (lines : List (List Char)) (l : LyricLine),
      l ∈ parseLoopF fuel lines → l.isInstrumental = false := by
  intro fuel
  induction fuel with
  | zero => intro lines l h; simp [parseLoopF] at h
  | succ fuel ih =>
    intro lines l h
    match lines with
    | [] => simp [parseLoopF] at h
    | rawLine :: rest =>
      rw [parseLoopF_cons] at h
      by_cases hline : trim rawLine = []
      · rw [if_pos hline] at h
        exact ih rest l h
      · rw [if_neg hline] at h
        match rest with
        | [] => simp at h
        | tlRaw :: rest2 =>
          simp only [] at h
          by_cases htl : trim tlRaw = []
          · rw [if_pos htl] at h
            simp at h
          · rw [if_neg htl] at h
            by_cases hmal :
                ((splitArrow (trim tlRaw)).getD 0 [] == []
                  || jsOptFalsy ((splitArrow (trim tlRaw)).get? 1)) = true
            · rw [if_pos hmal] at h
              exact ih rest2 l h
            · rw [if_neg hmal] at h
              rcases List.mem_cons.mp h with h1 | h1
              · rw [h1]
              · exact ih _ l h1

/-- A gap that passes the threshold test orders the two times. -/
theorem jsGt_sub_le {x y : JSNum}
    (h : jsGt (jsSub y x) (some GAP_THRESHOLD) = true) : jsLe x y = true := by
  cases x with
  | none =>
    cases y with
    | none => simp [jsSub, jsGt] at h
    | some b => simp [jsSub, jsGt] at h
  | some a =>
    cases y with
    | none => simp [jsSub, jsGt] at h
    | some b =>
      simp only [jsSub, jsGt, GAP_THRESHOLD, decide_eq_true_eq] at h
      simp only [jsLe, decide_eq_true_eq]
      omega

/-! ## Claim C5 -/

/-- **C5.** For every adjacent pair of successfully parsed segments,
`parseSRT` inserts a synthetic segment with `isInstrumental = true`,
`startTime` equal to the preceding segment's `endTime` and `endTime`
equal to the following segment's `startTime` exactly when
`nextStart - currentEnd > 10000` ms, and only then; this is captured by
the equality of `parseSRT` with the positional description
`gapFillSpec`, which emits after the segment at each index `i` exactly
one such break segment when the gap test passes and none otherwise (in
particular a 12-second gap yields exactly one synthetic segment and a
5-second gap yields none). -/
theorem claim_C5 (s : String) : parseSRT s = gapFillSpec (parseEntries s) :=
  fillGapsAux_eq_spec (parseEntries s) 0

/-! ## Claim C10 -/

/-- **C10 counterexample.** The claim states that *every* segment
returned by `parseSRT`, for *every* input text, satisfies
`startTimeMs ≤ endTimeMs`.  The parser performs no such validation: an
entry whose timestamps are reversed is returned as-is, with
`startTime = 2000 > endTime = 1000`, so the claimed invariant fails. -/
theorem claim_C10_cex :
    (parseSRT ("1\n00:00:02,000 --> 00:00:01,000\nhi")).length = 1 ∧
      jsLe ((parseSRT ("1\n00:00:02,000 --> 00:00:01,000\nhi")).getD 0 default).startTime
        ((parseSRT ("1\n00:00:02,000 --> 00:00:01,000\nhi")).getD 0 default).endTime = false := by
  decide

/-- **C10 (amended).** If every entry produced by the scanning pass of
`parseSRT` satisfies `startTime ≤ endTime` (which the parser itself does
not validate), then every segment of the returned sequence — parsed
entries and synthesized instrumental breaks alike — satisfies
`startTime ≤ endTime`; the synthesized breaks satisfy it unconditionally
because they are only inserted when the gap is positive (greater than
10000 ms). -/
theorem claim_C10_amended (s : String)
    (h : ∀ l ∈ parseEntries s, jsLe l.startTime l.endTime = true) :
    ∀ l ∈ parseSRT s, jsLe l.startTime l.endTime = true := by
  intro l hl
  have hl2 : l ∈ fillGapsAux 0 (parseEntries s) := hl
  rcases mem_fillGapsAux hl2 with h1 | ⟨j, a, b, hgap, rfl⟩
  · exact h l h1
  · exact jsGt_sub_le hgap

/-- **C10 witness.** A concrete two-entry text with ordered timestamps:
the hypothesis of the amended claim holds and the conclusion follows. -/
theorem claim_C10_witness :
    (∀ l ∈ parseEntries ("1\n00:00:01,000 --> 00:00:02,000\nhi\n\n2\n00:00:14,000 --> 00:00:15,000\nyo"),
        jsLe l.startTime l.endTime = true) ∧
      (∀ l ∈ parseSRT ("1\n00:00:01,000 --> 00:00:02,000\nhi\n\n2\n00:00:14,000 --> 00:00:15,000\nyo"),
        jsLe l.startTime l.endTime = true) :=
  ⟨by decide, claim_C10_amended _ (by decide)⟩

/-! ## Claim C9 -/

/-- **C9 counterexample.** The claim states that the id of each
synthesized gap segment (`break-<index>`) is distinct from the id of
every real parsed segment.  But identifier lines are accepted as
arbitrary strings, so a real entry whose identifier line is literally
`break-0`, followed by a gap of more than 10 seconds, collides with the
id synthesized for the break inserted after segment 0: positions 0
(real) and 1 (synthetic) of the output carry the same id. -/
theorem claim_C9_cex :
    ((parseSRT ("break-0\n00:00:01,000 --> 00:00:02,000\nhi\n\n2\n00:00:14,000 --> 00:00:15,000\nyo")).getD
        0 default).isInstrumental = false ∧
      ((parseSRT ("break-0\n00:00:01,000 --> 00:00:02,000\nhi\n\n2\n00:00:14,000 --> 00:00:15,000\nyo")).getD
          1 default).isInstrumental = true ∧
      ((parseSRT ("break-0\n00:00:01,000 --> 00:00:02,000\nhi\n\n2\n00:00:14,000 --> 00:00:15,000\nyo")).getD
          0 default).id =
        ((parseSRT ("break-0\n00:00:01,000 --> 00:00:02,000\nhi\n\n2\n00:00:14,000 --> 00:00:15,000\nyo")).getD
            1 default).id := by
  decide

/-- **C9 (amended).** Provided no parsed entry's id is itself of the
synthesized form `break-<n>` (identifier lines being arbitrary strings,
the parser cannot guarantee this), the id of every synthesized gap
segment is distinct from the id of every real (non-instrumental) segment
in the sequence returned by `parseSRT`. -/
theorem claim_C9_amended (s : String)
    (h : ∀ e ∈ parseEntries s, ∀ j : Nat, e.id ≠ breakId j) :
    ∀ a ∈ parseSRT s, ∀ b ∈ parseSRT s,
      a.isInstrumental = true → b.isInstrumental = false → a.id ≠ b.id := by
  intro a ha b hb hInstA hInstB
  have ha2 : a ∈ fillGapsAux 0 (parseEntries s) := ha
  have hb2 : b ∈ fillGapsAux 0 (parseEntries s) := hb
  rcases mem_fillGapsAux ha2 with h1 | ⟨j, p, q, _, rfl⟩
  · have := parseLoopF_not_instrumental _ _ a h1
    rw [hInstA] at this
    exact absurd this (by simp)
  · rcases mem_fillGapsAux hb2 with h2 | ⟨j2, p2, q2, _, rfl⟩
    · intro hc
      exact h b h2 j hc.symm
    · simp at hInstB

/-- **C9 witness.** A concrete text whose entry ids `1` and `2` are not
of the form `break-<n>`: the hypothesis holds and synthesized break ids
are distinct from the real ids. -/
theorem claim_C9_witness :
    (∀ e ∈ parseEntries ("1\n00:00:01,000 --> 00:00:02,000\nhi\n\n2\n00:00:14,000 --> 00:00:15,000\nyo"),
        ∀ j : Nat, e.id ≠ breakId j) ∧
      (∀ a ∈ parseSRT ("1\n00:00:01,000 --> 00:00:02,000\nhi\n\n2\n00:00:14,000 --> 00:00:15,000\nyo"),
        ∀ b ∈ parseSRT ("1\n00:00:01,000 --> 00:00:02,000\nhi\n\n2\n00:00:14,000 --> 00:00:15,000\nyo"),
          a.isInstrumental = true → b.isInstrumental = false → a.id ≠ b.id) := by
  have h :
      ∀ e ∈ parseEntries ("1\n00:00:01,000 --> 00:00:02,000\nhi\n\n2\n00:00:14,000 --> 00:00:15,000\nyo"),
        ∀ j : Nat, e.id ≠ breakId j := by
    have hents :
        parseEntries ("1\n00:00:01,000 --> 00:00:02,000\nhi\n\n2\n00:00:14,000 --> 00:00:15,000\nyo") =
          [⟨['1'], some 1000, some 2000, ['h', 'i'], false⟩,
           ⟨['2'], some 14000, some 15000, ['y', 'o'], false⟩] := by decide
    rw [hents]
    intro e he j
    have hbj : breakId j = 'b' :: 'r' :: 'e' :: 'a' :: 'k' :: '-' :: (Nat.repr j).data := rfl
    rcases List.mem_cons.mp he with rfl | he2
    · intro hc
      rw [hbj] at hc
      injection hc with h1 _
      exact absurd h1 (by decide)
    · rcases List.mem_cons.mp he2 with rfl | he3
      · intro hc
        rw [hbj] at hc
        injection hc with h1 _
        exact absurd h1 (by decide)
      · simp at he3
  exact ⟨h, claim_C9_amended _ h⟩

/-! ## Infrastructure: well-formed entry blocks and fuel stability -/

theorem length_dropWhile_le {α : Type} (p : α → Bool) (l : List α) :
    (l.dropWhile p).length ≤ l.length := by
  induction l with
  | nil => simp [List.dropWhile]
  | cons a tl ih =>
    rw [List.dropWhile_cons]
    split
    · exact Nat.le_trans ih (by simp)
    · simp

/-- The scanning loop is independent of the fuel, provided the fuel
exceeds the number of lines (each iteration consumes at least one
line). -/
theorem parseLoopF_stable :
    ∀ (f g : Nat) (lines : List (List Char)),
      lines.length < f → lines.length < g → parseLoopF f lines = parseLoopF g lines := by
  intro f
  induction f with
  | zero => intro g lines hf; omega
  | succ f ih =>
    intro g lines hf hg
    match g, hg with
    | g + 1, hg =>
      match lines with
      | [] => rfl
      | rawLine :: rest =>
        rw [parseLoopF_cons, parseLoopF_cons]
        simp only [List.length_cons] at hf hg
        by_cases hline : trim rawLine = []
        · rw [if_pos hline, if_pos hline]
          exact ih (g := g) rest (by omega) (by omega)
        · rw [if_neg hline, if_neg hline]
          match rest with
          | [] => rfl
          | tlRaw :: rest2 =>
            simp only []
            simp only [List.length_cons] at hf hg
            by_cases htl : trim tlRaw = []
            · rw [if_pos htl, if_pos htl]
            · rw [if_neg htl, if_neg htl]
              by_cases hmal :
                  ((splitArrow (trim tlRaw)).getD 0 [] == []
                    || jsOptFalsy ((splitArrow (trim tlRaw)).get? 1)) = true
              · rw [if_pos hmal, if_pos hmal]
                exact ih (g := g) rest2 (by omega) (by omega)
              · rw [if_neg hmal, if_neg hmal]
                have hd := length_dropWhile_le (fun l => trim l != []) rest2
                rw [ih (g := g) (rest2.dropWhile fun l => trim l != []) (by omega) (by omega)]

/-- A well-formed SRT entry block: a non-blank identifier line, a
non-blank timing line whose `' --> '` split passes the truthiness test
of the parser, and non-blank text lines. -/
structure SrtBlock where
  idLine : List Char
  timeLine : List Char
  textLines : List (List Char)

/-- The lines of a block as they appear in the input: id line, timing
line, text lines, and the blank separator line. -/
def blockLines (b : SrtBlock) : List (List Char) :=
  b.idLine :: b.timeLine :: (b.textLines ++ [[]])

/-- Well-formedness of a block (decidable, stated with the exact
truthiness test of the parser). -/
def BlockWF (b : SrtBlock) : Prop :=
  trim b.idLine ≠ [] ∧ trim b.timeLine ≠ [] ∧
    ((splitArrow (trim b.timeLine)).getD 0 [] == []
      || jsOptFalsy ((splitArrow (trim b.timeLine)).get? 1)) = false ∧
    ∀ t ∈ b.textLines, trim t ≠ []

instance (b : SrtBlock) : Decidable (BlockWF b) := by
  unfold BlockWF
  infer_instance

/-- The entry the parser emits for a well-formed block. -/
def blockEntry (b : SrtBlock) : LyricLine :=
  ⟨trim b.idLine, parseTime ((splitArrow (trim b.timeLine)).getD 0 []),
    parseTime ((splitArrow (trim b.timeLine)).getD 1 []),
    List.intercalate ['\n'] (b.textLines.map trim), false⟩

theorem takeWhile_append_of_all {α : Type} (p : α → Bool) (xs : List α) (y : α)
    (rest : List α) (h : ∀ x ∈ xs, p x = true) (hy : p y = false) :
    (xs ++ y :: rest).takeWhile p = xs ∧ (xs ++ y :: rest).dropWhile p = y :: rest := by
  induction xs with
  | nil => simp [List.takeWhile_cons, List.dropWhile_cons, hy]
  | cons a tl ih =>
    have ha : p a = true := h a (by simp)
    have ih2 := ih (fun x hx => h x (by simp [hx]))
    simp [List.takeWhile_cons, List.dropWhile_cons, ha, ih2.1, ih2.2]

/-- Parsing one well-formed block at the head of the input emits exactly
its entry and continues after the blank separator (consuming two units
of fuel). -/
theorem parseLoopF_block (fuel : Nat) (b : SrtBlock) (rest : List (List Char))
    (hwf : BlockWF b) :
    parseLoopF (fuel + 2) (blockLines b ++ rest) = blockEntry b :: parseLoopF fuel rest := by
  obtain ⟨hid, htl, hok, htexts⟩ := hwf
  have hspan := takeWhile_append_of_all (fun l => trim l != []) b.textLines [] rest
    (fun x hx => by simpa using htexts x hx) (by simp [trim])
  have hlines : blockLines b ++ rest =
      b.idLine :: b.timeLine :: (b.textLines ++ [] :: rest) := by
    simp [blockLines]
  rw [hlines, show fuel + 2 = (fuel + 1) + 1 from rfl, parseLoopF_cons, if_neg hid]
  simp only []
  rw [if_neg htl]
  simp only [hok, Bool.false_eq_true, if_false, hspan.1, hspan.2]
  rw [parseLoopF_cons, if_pos (show trim [] = [] from rfl)]
  rfl

/-- Parsing a sequence of well-formed blocks followed by a dangling
identifier line (with no timing line after it) yields exactly the
entries of the blocks: the dangling identifier hits the `break` of the
scanning loop. -/
theorem parseLoopF_blocks (bs : List SrtBlock) (idLine : List Char)
    (hwf : ∀ b ∈ bs, BlockWF b) (hid : trim idLine ≠ []) :
    parseLoopF ((bs.flatMap blockLines ++ [idLine]).length + 1)
        (bs.flatMap blockLines ++ [idLine]) = bs.map blockEntry := by
  induction bs with
  | nil =>
    have hnil : ([] : List SrtBlock).flatMap blockLines ++ [idLine] = [idLine] := by simp
    rw [hnil, parseLoopF_cons, if_neg hid]
    rfl
  | cons b bs ih =>
    have hwfb := hwf b (by simp)
    have hwfs : ∀ x ∈ bs, BlockWF x := fun x hx => hwf x (by simp [hx])
    have hassoc : (b :: bs).flatMap blockLines ++ [idLine] =
        blockLines b ++ (bs.flatMap blockLines ++ [idLine]) := by simp
    rw [hassoc]
    have hblen : (blockLines b).length = b.textLines.length + 3 := by simp [blockLines]
    have hlen : (blockLines b ++ (bs.flatMap blockLines ++ [idLine])).length + 1 =
        ((bs.flatMap blockLines ++ [idLine]).length + (b.textLines.length + 2)) + 2 := by
      simp only [List.length_append, hblen]
      omega
    rw [hlen, parseLoopF_block _ b _ hwfb,
      parseLoopF_stable ((bs.flatMap blockLines ++ [idLine]).length + (b.textLines.length + 2))
        ((bs.flatMap blockLines ++ [idLine]).length + 1) (bs.flatMap blockLines ++ [idLine])
        (by omega) (by omega),
      ih hwfs, List.map_cons]

/-! ## Claim C4 -/

/-- **C4 counterexample.** The claim states that an absent *or
malformed* timing line stops parsing at that entry, returning exactly
the entries parsed before it, without skipping the bad entry to scan for
a later valid entry.  On the input below, entry `1` has a present but
malformed timing line (`garbage`, no `' --> '`), so under the claim the
result would be empty; instead the parser executes `continue`, skips the
bad entry, and successfully parses the later entry `2`. -/
theorem claim_C4_cex :
    (parseSRT ("1\ngarbage\n2\n00:00:01,000 --> 00:00:02,000\nhi")).length = 1 ∧
      ((parseSRT ("1\ngarbage\n2\n00:00:01,000 --> 00:00:02,000\nhi")).getD 0 default).id
        = ['2'] := by
  decide

/-- **C4 (amended).** The stop-versus-skip behaviour of the scanning
loop, split by the two failure modes the claim conflates:

1. when the timing line is *absent* — the identifier line is the last
   line of the input — parsing stops and returns exactly the entries of
   the well-formed blocks before it (no exception);
2. when a timing line is present but *malformed* (its `' --> '` split
   fails the truthiness test), the entry is *skipped* and scanning
   continues with the lines after the timing line;
3. when the line following an identifier line is *blank*, parsing stops
   and discards everything after it. -/
theorem claim_C4_amended :
    (∀ (bs : List SrtBlock) (idLine : List Char), (∀ b ∈ bs, BlockWF b) → trim idLine ≠ [] →
        parseLoopF ((bs.flatMap blockLines ++ [idLine]).length + 1)
            (bs.flatMap blockLines ++ [idLine]) = bs.map blockEntry) ∧
      (∀ (fuel : Nat) (idLine tlRaw : List Char) (rest : List (List Char)),
          trim idLine ≠ [] → trim tlRaw ≠ [] →
          ((splitArrow (trim tlRaw)).getD 0 [] == []
            || jsOptFalsy ((splitArrow (trim tlRaw)).get? 1)) = true →
          parseLoopF (fuel + 1) (idLine :: tlRaw :: rest) = parseLoopF fuel rest) ∧
      (∀ (fuel : Nat) (idLine tlRaw : List Char) (rest : List (List Char)),
          trim idLine ≠ [] → trim tlRaw = [] →
          parseLoopF (fuel + 1) (idLine :: tlRaw :: rest) = []) := by
  refine ⟨parseLoopF_blocks, ?_, ?_⟩
  · intro fuel idLine tlRaw rest h1 h2 h3
    rw [parseLoopF_cons, if_neg h1]
    simp only []
    rw [if_neg h2, if_pos h3]
  · intro fuel idLine tlRaw rest h1 h2
    rw [parseLoopF_cons, if_neg h1]
    simp only []
    rw [if_pos h2]

/-- **C4 witness.** Concrete instances of the three behaviours: one
well-formed block followed by a dangling identifier `9` parses to
exactly that block's entry; a malformed timing line `g` after
identifier `1` skips to the rest of the input; a blank line after an
identifier stops parsing. -/
theorem claim_C4_witness :
    BlockWF ⟨['1'], "00:00:01,000 --> 00:00:02,000".data, [['h', 'i']]⟩ ∧
      parseLoopF
          (([⟨['1'], "00:00:01,000 --> 00:00:02,000".data, [['h', 'i']]⟩].flatMap blockLines
              ++ [['9']]).length + 1)
          ([⟨['1'], "00:00:01,000 --> 00:00:02,000".data, [['h', 'i']]⟩].flatMap blockLines
            ++ [['9']]) =
        [blockEntry ⟨['1'], "00:00:01,000 --> 00:00:02,000".data, [['h', 'i']]⟩] ∧
      parseLoopF (2 + 1) (['1'] :: ['g'] :: [['x']]) = parseLoopF 2 [['x']] ∧
      parseLoopF (2 + 1) (['1'] :: [' '] :: [['x']]) = [] :=
  ⟨by decide,
    claim_C4_amended.1 _ _ (by decide) (by decide),
    claim_C4_amended.2.1 2 _ _ _ (by decide) (by decide) (by decide),
    claim_C4_amended.2.2 2 _ _ _ (by decide) (by decide)⟩

/-! ## Infrastructure: digit characters and timestamp formatting -/

/-- The character of the decimal digit `d`. -/
def digitChar (d : Nat) : Char := Char.ofNat (48 + d)

theorem digitChar_toNat {d : Nat} (hd : d ≤ 9) : (digitChar d).toNat = 48 + d := by
  interval_cases d <;> rfl

theorem digitChar_isDigit {d : Nat} (hd : d ≤ 9) : (digitChar d).isDigit = true := by
  interval_cases d <;> rfl

theorem isJsWs_digitChar {d : Nat} (hd : d ≤ 9) : isJsWs (digitChar d) = false := by
  interval_cases d <;> rfl

theorem digitChar_ne {d : Nat} (hd : d ≤ 9) {c : Char}
    (hc : c.toNat < 48 ∨ 57 < c.toNat) : digitChar d ≠ c := by
  intro he
  have := congrArg Char.toNat he
  rw [digitChar_toNat hd] at this
  omega

theorem ne_digitChar {d : Nat} (hd : d ≤ 9) {c : Char}
    (hc : c.toNat < 48 ∨ 57 < c.toNat) : c ≠ digitChar d :=
  (digitChar_ne hd hc).symm

/-- Two-digit zero-padded decimal rendering (`HH`, `MM`, `SS`). -/
def pad2 (n : Nat) : List Char := [digitChar (n / 10), digitChar (n % 10)]

/-- Three-digit zero-padded decimal rendering (`mmm`). -/
def pad3 (n : Nat) : List Char :=
  [digitChar (n / 100), digitChar (n / 10 % 10), digitChar (n % 10)]

/-- A timestamp token of the exact form `HH:MM:SS,mmm`. -/
def fmtTS (h m s ms : Nat) : List Char :=
  pad2 h ++ ':' :: pad2 m ++ ':' :: pad2 s ++ ',' :: pad3 ms

/-- Unfolding equation for `splitChar` on a cons. -/
theorem splitChar_cons (sep c : Char) (rest : List Char) :
    splitChar sep (c :: rest) =
      (if c = sep then [] :: splitChar sep rest
       else
        match splitChar sep rest with
        | [] => [[c]]
        | r :: rs => (c :: r) :: rs) := rfl

theorem splitChar_not_mem {c : Char} {l : List Char} (h : c ∉ l) : splitChar c l = [l] := by
  induction l with
  | nil => rfl
  | cons a tl ih =>
    have ha : a ≠ c := fun he => h (by simp [he])
    have htl : c ∉ tl := fun hm => h (by simp [hm])
    rw [splitChar_cons, if_neg ha, ih htl]

theorem splitChar_append_cons {c : Char} {l1 : List Char} (l2 : List Char) (h : c ∉ l1) :
    splitChar c (l1 ++ c :: l2) = l1 :: splitChar c l2 := by
  induction l1 with
  | nil => rw [List.nil_append, splitChar_cons, if_pos rfl]
  | cons a tl ih =>
    have ha : a ≠ c := fun he => h (by simp [he])
    have htl : c ∉ tl := fun hm => h (by simp [hm])
    rw [List.cons_append, splitChar_cons, if_neg ha, ih htl]

/-- A character outside the digit range is not among the two digits of a
`pad2` rendering. -/
theorem not_mem_pad2 {c : Char} {n : Nat} (hn : n < 100)
    (hc : c.toNat < 48 ∨ 57 < c.toNat) : c ∉ pad2 n := by
  intro hmem
  simp only [pad2, List.mem_cons, List.not_mem_nil, or_false] at hmem
  rcases hmem with rfl | rfl
  · rw [digitChar_toNat (show n / 10 ≤ 9 by omega)] at hc; omega
  · rw [digitChar_toNat (show n % 10 ≤ 9 by omega)] at hc; omega

/-- A character outside the digit range is not among the three digits of
a `pad3` rendering. -/
theorem not_mem_pad3 {c : Char} {n : Nat} (hn : n < 1000)
    (hc : c.toNat < 48 ∨ 57 < c.toNat) : c ∉ pad3 n := by
  intro hmem
  simp only [pad3, List.mem_cons, List.not_mem_nil, or_false] at hmem
  rcases hmem with rfl | rfl | rfl
  · rw [digitChar_toNat (show n / 100 ≤ 9 by omega)] at hc; omega
  · rw [digitChar_toNat (show n / 10 % 10 ≤ 9 by omega)] at hc; omega
  · rw [digitChar_toNat (show n % 10 ≤ 9 by omega)] at hc; omega

/-- The digits and colons of the `HH:MM:SS` part never equal a comma. -/
theorem comma_not_mem_hms {h m s : Nat} (hh : h < 100) (hm : m < 100) (hs : s < 100) :
    ',' ∉ pad2 h ++ (':' :: (pad2 m ++ (':' :: pad2 s))) := by
  intro hmem
  rcases List.mem_append.mp hmem with h1 | h1
  · exact absurd h1 (not_mem_pad2 hh (by decide))
  · rcases List.mem_cons.mp h1 with heq | h2
    · exact absurd heq (by decide)
    · rcases List.mem_append.mp h2 with h3 | h3
      · exact absurd h3 (not_mem_pad2 hm (by decide))
      · rcases List.mem_cons.mp h3 with heq | h4
        · exact absurd heq (by decide)
        · exact absurd h4 (not_mem_pad2 hs (by decide))

theorem trim_pad2 {n : Nat} (hn : n < 100) : trim (pad2 n) = pad2 n := by
  simp [trim, pad2, List.dropWhile_cons, isJsWs_digitChar (show n / 10 ≤ 9 by omega),
    isJsWs_digitChar (show n % 10 ≤ 9 by omega)]

theorem jsNumber_pad2 {n : Nat} (hn : n < 100) : jsNumber (pad2 n) = some (n : Int) := by
  have h1 : n / 10 ≤ 9 := by omega
  have h2 : n % 10 ≤ 9 := by omega
  rw [jsNumber]
  simp only [trim_pad2 hn]
  rw [if_neg (by simp [pad2])]
  rw [if_neg (by simp [pad2]; exact digitChar_ne h1 (by decide))]
  rw [if_neg (by simp [pad2]; exact digitChar_ne h1 (by decide))]
  rw [if_pos (by simp [pad2, List.all_cons, digitChar_isDigit h1, digitChar_isDigit h2])]
  simp only [pad2, digitsVal, List.foldl]
  congr 1
  rw [digitChar_toNat h1, digitChar_toNat h2]
  omega

theorem jsParseInt_pad3 {n : Nat} (hn : n < 1000) : jsParseInt (pad3 n) = some (n : Int) := by
  have h1 : n / 100 ≤ 9 := by omega
  have h2 : n / 10 % 10 ≤ 9 := by omega
  have h3 : n % 10 ≤ 9 := by omega
  rw [jsParseInt]
  simp only [pad3, List.dropWhile_cons, isJsWs_digitChar h1, Bool.false_eq_true, if_false]
  rw [if_neg (by simp; exact digitChar_ne h1 (by decide))]
  rw [if_neg (by simp; exact digitChar_ne h1 (by decide))]
  simp only [List.takeWhile_cons, digitChar_isDigit h1, digitChar_isDigit h2,
    digitChar_isDigit h3, if_true, List.takeWhile_nil]
  rw [if_neg (by simp)]
  simp only [digitsVal, List.foldl]
  congr 1
  rw [digitChar_toNat h1, digitChar_toNat h2, digitChar_toNat h3]
  omega

/-! ## Claim C8 -/

/-- **C8.** For every timestamp token of the form `HH:MM:SS,mmm`, the
parser's time conversion returns `((H*3600 + M*60 + S) * 1000) + mmm`
milliseconds.  No bounds validation is performed on the magnitudes of
`H`, `M` or `S` beyond the two-digit field width: the theorem holds for
all field values up to 99 (e.g. seconds fields larger than 59), and in
particular `00:00:31,384` parses to `31384` (the witness below). -/
theorem claim_C8 (h m s ms : Nat) (hh : h < 100) (hm : m < 100) (hs : s < 100)
    (hms : ms < 1000) :
    parseTime (fmtTS h m s ms) =
      some ((((h : Int) * 3600 + (m : Int) * 60 + (s : Int)) * 1000) + (ms : Int)) := by
  have hsplit : splitChar ',' (fmtTS h m s ms) =
      [pad2 h ++ (':' :: (pad2 m ++ (':' :: pad2 s))), pad3 ms] := by
    have hshape : fmtTS h m s ms =
        (pad2 h ++ (':' :: (pad2 m ++ (':' :: pad2 s)))) ++ ',' :: pad3 ms := by
      simp [fmtTS, List.append_assoc]
    have hA : splitChar ',' (pad3 ms) = [pad3 ms] :=
      splitChar_not_mem (not_mem_pad3 hms (by decide))
    have hB : splitChar ','
        ((pad2 h ++ (':' :: (pad2 m ++ (':' :: pad2 s)))) ++ ',' :: pad3 ms) =
          (pad2 h ++ (':' :: (pad2 m ++ (':' :: pad2 s)))) :: splitChar ',' (pad3 ms) :=
      splitChar_append_cons (pad3 ms) (comma_not_mem_hms hh hm hs)
    rw [hshape, hB, hA]
  have hcolon : splitChar ':' (pad2 h ++ (':' :: (pad2 m ++ (':' :: pad2 s)))) =
      [pad2 h, pad2 m, pad2 s] := by
    have hA : splitChar ':' (pad2 s) = [pad2 s] :=
      splitChar_not_mem (not_mem_pad2 hs (by decide))
    have hB : splitChar ':' (pad2 m ++ (':' :: pad2 s)) =
        pad2 m :: splitChar ':' (pad2 s) :=
      splitChar_append_cons (pad2 s) (not_mem_pad2 hm (by decide))
    have hC : splitChar ':' (pad2 h ++ (':' :: (pad2 m ++ (':' :: pad2 s)))) =
        pad2 h :: splitChar ':' (pad2 m ++ (':' :: pad2 s)) :=
      splitChar_append_cons (pad2 m ++ (':' :: pad2 s)) (not_mem_pad2 hh (by decide))
    rw [hC, hB, hA]
  rw [parseTime, if_neg (by simp [fmtTS, pad2])]
  simp only [hsplit, List.getD_cons_zero, List.get?_cons_succ, List.get?_cons_zero,
    List.getD_cons_succ]
  rw [if_neg (by simp [pad3]), hcolon]
  simp only [List.map_cons, jsNumber_pad2 hh, jsNumber_pad2 hm, jsNumber_pad2 hs,
    List.getD_cons_zero, List.getD_cons_succ, jsParseInt_pad3 hms, jsAdd, jsMul]

/-- **C8 witness.** The token `00:00:31,384` (which is exactly
`fmtTS 0 0 31 384`) parses to 31384 ms. -/
theorem claim_C8_witness :
    fmtTS 0 0 31 384 = "00:00:31,384".data ∧
      parseTime ("00:00:31,384").data = some 31384 := by
  have hf : fmtTS 0 0 31 384 = "00:00:31,384".data := by decide
  have h := claim_C8 0 0 31 384 (by decide) (by decide) (by decide) (by decide)
  rw [hf] at h
  exact ⟨hf, by rw [h]; norm_num⟩

/-! ## Infrastructure: lengths of the encoded output -/

theorem wavHeader_length (numSamples numChannels sampleRate : Nat) :
    (wavHeader numSamples numChannels sampleRate).length = 44 := rfl

theorem int16LE_length (v : Int) : (int16LE v).length = 2 := rfl

theorem floatTo16BitPCM_length (l : List ℚ) :
    (floatTo16BitPCM l).length = 2 * l.length := by
  induction l with
  | nil => rfl
  | cons a tl ih =>
    simp only [floatTo16BitPCM, List.flatMap_cons] at ih ⊢
    rw [List.length_append, int16LE_length, ih, List.length_cons]
    omega

theorem interleave_cons (a b : ℚ) (l r : List ℚ) :
    interleave (a :: l) (b :: r) = a :: b :: interleave l r := by
  simp [interleave, List.zip_cons_cons, List.flatMap_cons]

theorem interleave_length (l : List ℚ) :
    ∀ r : List ℚ, (interleave l r).length = 2 * min l.length r.length := by
  induction l with
  | nil => intro r; simp [interleave]
  | cons a tl ih =>
    intro r
    cases r with
    | nil => simp [interleave]
    | cons b tr =>
      rw [interleave_cons, List.length_cons, List.length_cons, ih tr,
        List.length_cons, List.length_cons]
      omega

theorem encode_length (samples : List ℚ) (nc sr : Nat) :
    (encodeWAVOptimized samples nc sr).length = 44 + 2 * samples.length := by
  rw [encodeWAVOptimized, List.length_append, wavHeader_length, floatTo16BitPCM_length]

theorem renderChannel_length (song voice : AudioBuffer) (ch len : Nat) :
    (renderChannel song voice ch len).length = len := by
  simp [renderChannel]

theorem mixAudio_length (song voice : AudioBuffer) :
    (mixAudio song voice).length = 44 + 4 * max song.length voice.length := by
  show (encodeWAVOptimized
      (interleave (renderChannel song voice 0 (max song.length voice.length))
        (renderChannel song voice 1 (max song.length voice.length))) 2 targetRate).length = _
  rw [encode_length, interleave_length, renderChannel_length, renderChannel_length]
  omega

/-! ## Claim C1 -/

/-- **C1 counterexample.** The claim states that the output frame count
is `floor(max(backingLen, vocalLen) * 22050 / backingRate)`.  For a
backing track of 2 samples decoded at 44100 Hz and a vocal track of 1
sample, that formula predicts `floor(2 * 22050/44100) = 1` frame, but
`mixAudio` constructs its offline context with `length =
max(songBuffer.length, voiceBuffer.length)` frames directly, producing 2
frames (the data portion is `2 frames * 2 channels * 2 bytes`). -/
theorem claim_C1_cex :
    ((mixAudio ⟨44100, [[0, 0]], 2⟩ ⟨44100, [[0]], 1⟩).length - 44) / 4 = 2 ∧
      max 2 1 * 22050 / 44100 = 1 ∧ (2 : Nat) ≠ 1 := by
  refine ⟨?_, by decide, by decide⟩
  rw [mixAudio_length]
  rfl

/-- **C1 (amended).** The number of sample frames in the produced WAV
equals `max(backingLen, vocalLen)` exactly — the larger of the two
decoded lengths, with *no* rescaling by `targetRate / backingRate`: the
offline context is constructed with that raw maximum as its frame count,
and the encoder writes 4 bytes per frame (2 channels of 16 bits) after
the 44-byte header. -/
theorem claim_C1_amended (song voice : AudioBuffer) :
    (mixAudio song voice).length = 44 + 4 * max song.length voice.length ∧
      ((mixAudio song voice).length - 44) / 4 = max song.length voice.length := by
  have h := mixAudio_length song voice
  exact ⟨h, by rw [h]; omega⟩

/-! ## Infrastructure: header fields of the encoded output -/

theorem encode_getD40 (samples : List ℚ) (nc sr : Nat) :
    (encodeWAVOptimized samples nc sr).getD 40 0 = samples.length * 2 % 256 := rfl

theorem encode_getD41 (samples : List ℚ) (nc sr : Nat) :
    (encodeWAVOptimized samples nc sr).getD 41 0 = samples.length * 2 / 256 % 256 := rfl

theorem encode_getD42 (samples : List ℚ) (nc sr : Nat) :
    (encodeWAVOptimized samples nc sr).getD 42 0 = samples.length * 2 / 65536 % 256 := rfl

theorem encode_getD43 (samples : List ℚ) (nc sr : Nat) :
    (encodeWAVOptimized samples nc sr).getD 43 0 =
      samples.length * 2 / 16777216 % 256 := rfl

/-- The `data` sub-chunk length field stores the data byte count
whenever it does not overflow the 32-bit field. -/
theorem encode_readU32_40 (samples : List ℚ) (nc sr : Nat)
    (h : samples.length * 2 < 4294967296) :
    readU32 (encodeWAVOptimized samples nc sr) 40 = samples.length * 2 := by
  rw [readU32, encode_getD40, encode_getD41, encode_getD42, encode_getD43]
  omega

theorem encode_getD0 (samples : List ℚ) (nc sr : Nat) :
    (encodeWAVOptimized samples nc sr).getD 0 0 = 82 := rfl

theorem encode_getD1 (samples : List ℚ) (nc sr : Nat) :
    (encodeWAVOptimized samples nc sr).getD 1 0 = 73 := rfl

theorem encode_getD2 (samples : List ℚ) (nc sr : Nat) :
    (encodeWAVOptimized samples nc sr).getD 2 0 = 70 := rfl

theorem encode_getD3 (samples : List ℚ) (nc sr : Nat) :
    (encodeWAVOptimized samples nc sr).getD 3 0 = 70 := rfl

theorem encode_getD8 (samples : List ℚ) (nc sr : Nat) :
    (encodeWAVOptimized samples nc sr).getD 8 0 = 87 := rfl

theorem encode_getD9 (samples : List ℚ) (nc sr : Nat) :
    (encodeWAVOptimized samples nc sr).getD 9 0 = 65 := rfl

theorem encode_getD10 (samples : List ℚ) (nc sr : Nat) :
    (encodeWAVOptimized samples nc sr).getD 10 0 = 86 := rfl

theorem encode_getD11 (samples : List ℚ) (nc sr : Nat) :
    (encodeWAVOptimized samples nc sr).getD 11 0 = 69 := rfl

theorem encode_getD20 (samples : List ℚ) (nc sr : Nat) :
    (encodeWAVOptimized samples nc sr).getD 20 0 = 1 := rfl

theorem encode_getD21 (samples : List ℚ) (nc sr : Nat) :
    (encodeWAVOptimized samples nc sr).getD 21 0 = 0 := rfl

theorem encode2_getD22 (samples : List ℚ) (sr : Nat) :
    (encodeWAVOptimized samples 2 sr).getD 22 0 = 2 := rfl

theorem encode2_getD23 (samples : List ℚ) (sr : Nat) :
    (encodeWAVOptimized samples 2 sr).getD 23 0 = 0 := rfl

theorem encode_getD24 (samples : List ℚ) (nc : Nat) :
    (encodeWAVOptimized samples nc 22050).getD 24 0 = 34 := rfl

theorem encode_getD25 (samples : List ℚ) (nc : Nat) :
    (encodeWAVOptimized samples nc 22050).getD 25 0 = 86 := rfl

theorem encode_getD26 (samples : List ℚ) (nc : Nat) :
    (encodeWAVOptimized samples nc 22050).getD 26 0 = 0 := rfl

theorem encode_getD27 (samples : List ℚ) (nc : Nat) :
    (encodeWAVOptimized samples nc 22050).getD 27 0 = 0 := rfl

theorem encode2_getD28 (samples : List ℚ) :
    (encodeWAVOptimized samples 2 22050).getD 28 0 = 136 := rfl

theorem encode2_getD29 (samples : List ℚ) :
    (encodeWAVOptimized samples 2 22050).getD 29 0 = 88 := rfl

theorem encode2_getD30 (samples : List ℚ) :
    (encodeWAVOptimized samples 2 22050).getD 30 0 = 1 := rfl

theorem encode2_getD31 (samples : List ℚ) :
    (encodeWAVOptimized samples 2 22050).getD 31 0 = 0 := rfl

theorem encode2_getD32 (samples : List ℚ) (sr : Nat) :
    (encodeWAVOptimized samples 2 sr).getD 32 0 = 4 := rfl

theorem encode2_getD33 (samples : List ℚ) (sr : Nat) :
    (encodeWAVOptimized samples 2 sr).getD 33 0 = 0 := rfl

theorem encode_getD34 (samples : List ℚ) (nc sr : Nat) :
    (encodeWAVOptimized samples nc sr).getD 34 0 = 16 := rfl

theorem encode_getD35 (samples : List ℚ) (nc sr : Nat) :
    (encodeWAVOptimized samples nc sr).getD 35 0 = 0 := rfl

theorem encode_fmt_tag (samples : List ℚ) (nc sr : Nat) :
    readU16 (encodeWAVOptimized samples nc sr) 20 = 1 := by
  rw [readU16, encode_getD20, encode_getD21]

theorem encode2_channels (samples : List ℚ) (sr : Nat) :
    readU16 (encodeWAVOptimized samples 2 sr) 22 = 2 := by
  rw [readU16, encode2_getD22, encode2_getD23]

theorem encode_sampleRate (samples : List ℚ) (nc : Nat) :
    readU32 (encodeWAVOptimized samples nc 22050) 24 = 22050 := by
  rw [readU32, encode_getD24, encode_getD25, encode_getD26, encode_getD27]

theorem encode2_blockAlign (samples : List ℚ) (sr : Nat) :
    readU16 (encodeWAVOptimized samples 2 sr) 32 = 4 := by
  rw [readU16, encode2_getD32, encode2_getD33]

theorem encode2_byteRate (samples : List ℚ) :
    readU32 (encodeWAVOptimized samples 2 22050) 28 = 22050 * 4 := by
  rw [readU32, encode2_getD28, encode2_getD29, encode2_getD30, encode2_getD31]

theorem encode_bits (samples : List ℚ) (nc sr : Nat) :
    readU16 (encodeWAVOptimized samples nc sr) 34 = 16 := by
  rw [readU16, encode_getD34, encode_getD35]

/-! ## Claim C2 -/

/-- **C2 counterexample.** The claim states that the `fmt ` sub-chunk of
the mix output declares channel count 1 and block align 2.  The code
renders and encodes *stereo*: `encodeWAVOptimized(interleavedData, 2,
sampleRate)` writes channel count 2 at offset 22 and block align
`numChannels * 2 = 4` at offset 32. -/
theorem claim_C2_cex :
    readU16 (mixAudio ⟨22050, [[0]], 1⟩ ⟨22050, [[0]], 1⟩) 22 = 2 ∧
      readU16 (mixAudio ⟨22050, [[0]], 1⟩ ⟨22050, [[0]], 1⟩) 32 = 4 ∧
      (2 : Nat) ≠ 1 ∧ (4 : Nat) ≠ 2 := by
  exact ⟨rfl, rfl, by decide, by decide⟩

/-- **C2 (amended).** For every mix output byte buffer: bytes 0-3 are
ASCII `RIFF`, bytes 8-11 are `WAVE`, the `fmt ` sub-chunk declares audio
format 1 (integer PCM), channel count **2** (stereo, not 1), sample rate
22050, bits per sample 16, byte rate `sampleRate * blockAlign`, block
align **4** (2 channels of 2 bytes, not 2), and the `data` sub-chunk
length field equals the total buffer length minus 44 (whenever the data
size fits the 32-bit field, guaranteed by the size hypothesis). -/
theorem claim_C2_amended (song voice : AudioBuffer)
    (hbound : max song.length voice.length < 2 ^ 30) :
    (mixAudio song voice).getD 0 0 = 82 ∧ (mixAudio song voice).getD 1 0 = 73 ∧
      (mixAudio song voice).getD 2 0 = 70 ∧ (mixAudio song voice).getD 3 0 = 70 ∧
      (mixAudio song voice).getD 8 0 = 87 ∧ (mixAudio song voice).getD 9 0 = 65 ∧
      (mixAudio song voice).getD 10 0 = 86 ∧ (mixAudio song voice).getD 11 0 = 69 ∧
      readU16 (mixAudio song voice) 20 = 1 ∧
      readU16 (mixAudio song voice) 22 = 2 ∧
      readU32 (mixAudio song voice) 24 = 22050 ∧
      readU16 (mixAudio song voice) 32 = 4 ∧
      readU32 (mixAudio song voice) 28 = 22050 * 4 ∧
      readU16 (mixAudio song voice) 34 = 16 ∧
      readU32 (mixAudio song voice) 40 = (mixAudio song voice).length - 44 := by
  refine ⟨encode_getD0 _ 2 targetRate, encode_getD1 _ 2 targetRate,
    encode_getD2 _ 2 targetRate, encode_getD3 _ 2 targetRate,
    encode_getD8 _ 2 targetRate, encode_getD9 _ 2 targetRate,
    encode_getD10 _ 2 targetRate, encode_getD11 _ 2 targetRate,
    encode_fmt_tag _ 2 targetRate, encode2_channels _ targetRate,
    encode_sampleRate _ 2, encode2_blockAlign _ targetRate,
    encode2_byteRate _, encode_bits _ 2 targetRate, ?_⟩
  have hsl :
      (interleave (renderChannel song voice 0 (max song.length voice.length))
        (renderChannel song voice 1 (max song.length voice.length))).length =
        2 * max song.length voice.length := by
    rw [interleave_length, renderChannel_length, renderChannel_length]
    omega
  have h40 := encode_readU32_40
    (interleave (renderChannel song voice 0 (max song.length voice.length))
      (renderChannel song voice 1 (max song.length voice.length))) 2 targetRate
    (by rw [hsl]; omega)
  have hlen := mixAudio_length song voice
  show readU32 (encodeWAVOptimized
      (interleave (renderChannel song voice 0 (max song.length voice.length))
        (renderChannel song voice 1 (max song.length voice.length))) 2 targetRate) 40 = _
  rw [h40, hsl, hlen]
  omega

/-- **C2 witness.** Two one-sample decoded buffers: the size bound holds
and the channel-count and data-length fields are as amended. -/
theorem claim_C2_witness :
    (max 1 1 < 2 ^ 30) ∧
      readU16 (mixAudio ⟨22050, [[0]], 1⟩ ⟨22050, [[0]], 1⟩) 22 = 2 ∧
      readU32 (mixAudio ⟨22050, [[0]], 1⟩ ⟨22050, [[0]], 1⟩) 40 =
        (mixAudio ⟨22050, [[0]], 1⟩ ⟨22050, [[0]], 1⟩).length - 44 := by
  have h := claim_C2_amended ⟨22050, [[0]], 1⟩ ⟨22050, [[0]], 1⟩ (by norm_num)
  obtain ⟨-, -, -, -, -, -, -, -, -, h10, -, -, -, -, h15⟩ := h
  exact ⟨by norm_num, h10, h15⟩

/-! ## Infrastructure: truncation and the stored sample bytes -/

theorem truncQ_nonneg {q : ℚ} (h : 0 ≤ q) : truncQ q = ⌊q⌋ := by
  rw [truncQ, Rat.floor_def]
  exact Int.tdiv_eq_ediv (Rat.num_nonneg.mpr h) (Int.natCast_nonneg _)

theorem truncQ_neg (q : ℚ) : truncQ (-q) = -truncQ q := by
  rw [truncQ, truncQ, show (-q).num = -q.num from rfl, show (-q).den = q.den from rfl,
    Int.neg_tdiv]

theorem truncQ_intCast (n : ℤ) : truncQ (n : ℚ) = n := by
  rw [truncQ, Rat.num_intCast, Rat.den_intCast]
  exact Int.tdiv_one n

theorem clamp1_bounds (s : ℚ) : -1 ≤ clamp1 s ∧ clamp1 s ≤ 1 :=
  ⟨le_max_left _ _, max_le (by norm_num) (min_le_left _ _)⟩

theorem pcmVal_range (s : ℚ) : -32768 ≤ pcmVal s ∧ pcmVal s ≤ 32767 := by
  obtain ⟨hc1, hc2⟩ := clamp1_bounds s
  rw [pcmVal, scaled]
  split
  · rename_i hneg
    have hq1 : -32768 ≤ clamp1 s * 32768 := by nlinarith
    have hq2 : clamp1 s * 32768 ≤ 0 := by nlinarith
    have he : truncQ (clamp1 s * 32768) = -truncQ (-(clamp1 s * 32768)) := by
      rw [← truncQ_neg, neg_neg]
    have hnn : (0 : ℚ) ≤ -(clamp1 s * 32768) := by linarith
    have hfl := truncQ_nonneg hnn
    have hub : -(clamp1 s * 32768) ≤ ((32768 : ℤ) : ℚ) := by push_cast; linarith
    have h1 : ⌊-(clamp1 s * 32768)⌋ ≤ 32768 := by
      have := Int.floor_le_floor hub
      rwa [Int.floor_intCast] at this
    have h2 : 0 ≤ ⌊-(clamp1 s * 32768)⌋ := Int.floor_nonneg.mpr hnn
    rw [he, hfl]
    omega
  · rename_i hpos
    push_neg at hpos
    have hq1 : 0 ≤ clamp1 s * 32767 := by nlinarith
    have hq2 : clamp1 s * 32767 ≤ ((32767 : ℤ) : ℚ) := by push_cast; nlinarith
    have hfl := truncQ_nonneg hq1
    have h1 : ⌊clamp1 s * 32767⌋ ≤ 32767 := by
      have := Int.floor_le_floor hq2
      rwa [Int.floor_intCast] at this
    have h2 : 0 ≤ ⌊clamp1 s * 32767⌋ := Int.floor_nonneg.mpr hq1
    rw [hfl]
    omega

theorem toInt16wrap_range (v : Int) :
    -32768 ≤ toInt16wrap v ∧ toInt16wrap v ≤ 32767 := by
  rw [toInt16wrap]
  split <;> constructor <;> omega

theorem toInt16wrap_eq {v : Int} (h1 : -32768 ≤ v) (h2 : v ≤ 32767) :
    toInt16wrap v = v := by
  rw [toInt16wrap]
  split <;> omega

/-- The wrap of `setInt16` never fires for a clamped, scaled sample: the
stored value is exactly the truncated product of the specification. -/
theorem pcm16_eq_pcmVal (s : ℚ) : pcm16 s = pcmVal s :=
  toInt16wrap_eq (pcmVal_range s).1 (pcmVal_range s).2

theorem getD_append_add :
    ∀ (l1 l2 : List Nat) (n d : Nat), (l1 ++ l2).getD (l1.length + n) d = l2.getD n d := by
  intro l1
  induction l1 with
  | nil => intro l2 n d; simp
  | cons a tl ih =>
    intro l2 n d
    rw [List.cons_append, List.length_cons,
      show tl.length + 1 + n = (tl.length + n) + 1 from by omega, List.getD_cons_succ]
    exact ih l2 n d

theorem floatTo16BitPCM_getD :
    ∀ (l : List ℚ) (i : Nat), i < l.length →
      (floatTo16BitPCM l).getD (2 * i) 0 = ((pcm16 (l.getD i 0)) % 65536).toNat % 256 ∧
        (floatTo16BitPCM l).getD (2 * i + 1) 0 =
          ((pcm16 (l.getD i 0)) % 65536).toNat / 256 := by
  intro l
  induction l with
  | nil => intro i h; simp at h
  | cons a tl ih =>
    intro i h
    cases i with
    | zero => exact ⟨rfl, rfl⟩
    | succ i =>
      have h2 : i < tl.length := by
        rw [List.length_cons] at h
        omega
      have hstep := ih i h2
      constructor
      · rw [show 2 * (i + 1) = 2 * i + 1 + 1 from by omega]
        simp only [floatTo16BitPCM, List.flatMap_cons, int16LE, List.cons_append,
          List.nil_append, List.getD_cons_succ, List.getD_cons_zero] at hstep ⊢
        exact hstep.1
      · rw [show 2 * (i + 1) + 1 = 2 * i + 1 + 1 + 1 from by omega]
        simp only [floatTo16BitPCM, List.flatMap_cons, int16LE, List.cons_append,
          List.nil_append, List.getD_cons_succ, List.getD_cons_zero] at hstep ⊢
        exact hstep.2

/-- The two bytes at offset `44 + 2*i` of the encoded WAV decode, as a
signed little-endian 16-bit integer, to the value `floatTo16BitPCM`
stored for sample `i`. -/
theorem readS16_encode (samples : List ℚ) (nc sr : Nat) (i : Nat)
    (h : i < samples.length) :
    readS16 (encodeWAVOptimized samples nc sr) (44 + 2 * i) = pcm16 (samples.getD i 0) := by
  have hb := floatTo16BitPCM_getD samples i h
  have h44 : (wavHeader samples.length nc sr).length = 44 := rfl
  have he1 : (encodeWAVOptimized samples nc sr).getD (44 + 2 * i) 0 =
      (floatTo16BitPCM samples).getD (2 * i) 0 := by
    rw [encodeWAVOptimized, show (44 : Nat) + 2 * i =
      (wavHeader samples.length nc sr).length + 2 * i from by rw [h44]]
    exact getD_append_add _ _ _ _
  have he2 : (encodeWAVOptimized samples nc sr).getD (44 + 2 * i + 1) 0 =
      (floatTo16BitPCM samples).getD (2 * i + 1) 0 := by
    rw [encodeWAVOptimized, show (44 : Nat) + 2 * i + 1 =
      (wavHeader samples.length nc sr).length + (2 * i + 1) from by rw [h44]; omega]
    exact getD_append_add _ _ _ _
  have hr : -32768 ≤ pcm16 (samples.getD i 0) ∧ pcm16 (samples.getD i 0) ≤ 32767 :=
    toInt16wrap_range _
  rw [readS16, readU16, he1, he2, hb.1, hb.2]
  split <;> omega

/-! ## Claim C6 -/

/-- **C6.** For every float sample `s` passed to the WAV encoder, the
16-bit value stored little-endian in the output (read back signed from
the two bytes at offset `44 + 2*i`) equals `clamp(s, -1, 1) * 32768`
when the clamped value is negative and `clamp(s, -1, 1) * 32767` when it
is non-negative — the asymmetric scaling applied after hard clamping,
with the product truncated toward zero as `DataView.setInt16` does (the
16-bit wrap never fires, because the clamped product always lies within
the signed 16-bit range). -/
theorem claim_C6 (samples : List ℚ) (nc sr : Nat) (i : Nat) (h : i < samples.length) :
    readS16 (encodeWAVOptimized samples nc sr) (44 + 2 * i) =
      (if clamp1 (samples.getD i 0) < 0 then truncQ (clamp1 (samples.getD i 0) * 32768)
       else truncQ (clamp1 (samples.getD i 0) * 32767)) := by
  rw [readS16_encode samples nc sr i h, pcm16_eq_pcmVal, pcmVal, scaled, apply_ite truncQ]

/-- **C6 witness.** The sample `-1/2` is stored as
`trunc(-1/2 * 32768) = -16384`. -/
theorem claim_C6_witness :
    (0 : Nat) < 1 ∧ readS16 (encodeWAVOptimized [-(1 : ℚ) / 2] 2 22050) 44 = -16384 := by
  have h := claim_C6 [-(1 : ℚ) / 2] 2 22050 0 (by norm_num)
  rw [show (44 : Nat) + 2 * 0 = 44 from by norm_num] at h
  refine ⟨by norm_num, ?_⟩
  rw [h, List.getD_cons_zero]
  have hc : clamp1 (-(1 : ℚ) / 2) = -(1 : ℚ) / 2 := by
    rw [clamp1, min_eq_right (by norm_num), max_eq_right (by norm_num)]
  rw [hc, if_pos (by norm_num : -(1 : ℚ) / 2 < 0),
    show -(1 : ℚ) / 2 * 32768 = ((-16384 : ℤ) : ℚ) from by norm_num, truncQ_intCast]

/-! ## Infrastructure: the rendered sample values -/

theorem getD_mem_of_lt {α : Type} (l : List α) (n : Nat) (d : α) (h : n < l.length) :
    l.getD n d ∈ l := by
  induction l generalizing n with
  | nil => simp at h
  | cons a tl ih =>
    cases n with
    | zero => simp
    | succ n =>
      rw [List.getD_cons_succ]
      refine List.mem_cons_of_mem _ (ih n ?_)
      rw [List.length_cons] at h
      omega

theorem chanData_single {b : AudioBuffer} {d : List ℚ} (h : b.channels = [d]) (ch : Nat) :
    chanData b ch = d := by
  rw [chanData, h]
  split
  · rename_i hlt
    rw [List.length_singleton] at hlt
    rw [show ch = 0 from by omega]
    rfl
  · rfl

theorem renderChannel_getD (song voice : AudioBuffer) (ch len i : Nat) (h : i < len) :
    (renderChannel song voice ch len).getD i 0 = renderSample song voice ch i := by
  simp [renderChannel, List.getD, List.getElem?_map, List.getElem?_range, h]

theorem interleave_getD :
    ∀ (l r : List ℚ) (i : Nat), i < l.length → i < r.length →
      (interleave l r).getD (2 * i) 0 = l.getD i 0 ∧
        (interleave l r).getD (2 * i + 1) 0 = r.getD i 0 := by
  intro l
  induction l with
  | nil => intro r i h1 h2; simp at h1
  | cons a tl ih =>
    intro r i h1 h2
    cases r with
    | nil => simp at h2
    | cons b tr =>
      cases i with
      | zero => rw [interleave_cons]; exact ⟨rfl, rfl⟩
      | succ i =>
        have hl : i < tl.length := by rw [List.length_cons] at h1; omega
        have hr : i < tr.length := by rw [List.length_cons] at h2; omega
        have hstep := ih tr i hl hr
        rw [interleave_cons]
        constructor
        · rw [show 2 * (i + 1) = 2 * i + 1 + 1 from by omega, List.getD_cons_succ,
            List.getD_cons_succ, List.getD_cons_succ]
          exact hstep.1
        · rw [show 2 * (i + 1) + 1 = 2 * i + 1 + 1 + 1 from by omega, List.getD_cons_succ,
            List.getD_cons_succ, List.getD_cons_succ]
          exact hstep.2

/-- The first output frame of the mix (channel 0, bytes 44-45) is the
gain-weighted sum of the *first* samples of both decoded tracks — both
sources are scheduled at time 0. -/
theorem mixAudio_first_sample (song voice : AudioBuffer) (sd vd : List ℚ)
    (hsr : song.sampleRate = 22050) (hvr : voice.sampleRate = 22050)
    (hsc : song.channels = [sd]) (hvc : voice.channels = [vd])
    (h0s : 0 < song.length) (h0v : 0 < voice.length) :
    readS16 (mixAudio song voice) 44 =
      pcm16 ((7 / 10) * sd.getD 0 0 + (3 / 2) * vd.getD 0 0) := by
  have hmaxpos : 0 < max song.length voice.length := by omega
  have hact := readS16_encode
    (interleave (renderChannel song voice 0 (max song.length voice.length))
      (renderChannel song voice 1 (max song.length voice.length))) 2 targetRate 0
    (by
      rw [interleave_length, renderChannel_length, renderChannel_length]
      omega)
  rw [show (44 : Nat) + 2 * 0 = 44 from rfl] at hact
  have hil := interleave_getD
    (renderChannel song voice 0 (max song.length voice.length))
    (renderChannel song voice 1 (max song.length voice.length)) 0
    (by rw [renderChannel_length]; omega) (by rw [renderChannel_length]; omega)
  rw [show 2 * 0 = 0 from rfl] at hil
  have hch := renderChannel_getD song voice 0 (max song.length voice.length) 0 hmaxpos
  have hss : sourceSample song 0 0 = sd.getD 0 0 := by
    rw [sourceSample, hsr]
    simp only [Nat.zero_mul, Nat.zero_div]
    rw [if_pos h0s, chanData_single hsc]
  have hvv : sourceSample voice 0 0 = vd.getD 0 0 := by
    rw [sourceSample, hvr]
    simp only [Nat.zero_mul, Nat.zero_div]
    rw [if_pos h0v, chanData_single hvc]
  show readS16 (encodeWAVOptimized
      (interleave (renderChannel song voice 0 (max song.length voice.length))
        (renderChannel song voice 1 (max song.length voice.length))) 2 targetRate) 44 = _
  rw [hact, hil.1, hch, renderSample, hss, hvv]

/-- When both tracks decode at the context rate, the backing track is
constant `A`, the vocal track is silent, and the backing track governs
the length, every rendered sample is `0.7 * A`. -/
theorem renderSample_const (song voice : AudioBuffer) (A : ℚ) (sd vd : List ℚ)
    (hsr : song.sampleRate = 22050) (hvr : voice.sampleRate = 22050)
    (hsc : song.channels = [sd]) (hvc : voice.channels = [vd])
    (hsl : sd.length = song.length) (hvl : vd.length = voice.length)
    (hA : ∀ x ∈ sd, x = A) (hz : ∀ x ∈ vd, x = 0)
    (ch j : Nat) (hj : j < song.length) :
    renderSample song voice ch j = (7 / 10) * A := by
  rw [renderSample]
  have hs : sourceSample song ch j = A := by
    rw [sourceSample, hsr,
      show j * 22050 / targetRate = j from by show j * 22050 / 22050 = j; omega,
      if_pos hj, chanData_single hsc]
    exact hA _ (getD_mem_of_lt sd j 0 (by omega))
  have hv : (3 / 2 : ℚ) * sourceSample voice ch j = 0 := by
    rw [sourceSample, hvr,
      show j * 22050 / targetRate = j from by show j * 22050 / 22050 = j; omega]
    split
    · rename_i hlt
      rw [chanData_single hvc, hz _ (getD_mem_of_lt vd j 0 (by omega)), mul_zero]
    · rw [mul_zero]
  rw [hs, hv, add_zero]

/-! ## Claim C3 -/

/-- **C3 counterexample.** The claim states that whenever the vocal
track's duration exceeds a fixed 150-160 ms latency-compensation
constant, the vocal is scheduled to start that amount *after* the
backing track.  Under that scheduling the first output frame of the mix
below — an all-zero backing track and a vocal track of 3529 samples
(160.05 ms at 22050 Hz) whose first sample is 1 — would contain only the
backing contribution, `pcm16(0.7 * 0) = 0`.  The code starts both
sources at 0 (`songSource.start(0); voiceSource.start(0)`), so the first
frame contains the boosted, clamped vocal sample: 32767. -/
theorem claim_C3_cex :
    readS16 (mixAudio ⟨22050, [[0]], 1⟩
        ⟨22050, [(1 : ℚ) :: List.replicate 3528 0], 3529⟩) 44 = 32767 ∧
      pcm16 ((7 / 10) * (0 : ℚ)) = 0 ∧ (32767 : Int) ≠ 0 := by
  refine ⟨?_, ?_, by decide⟩
  · have h := mixAudio_first_sample ⟨22050, [[0]], 1⟩
      ⟨22050, [(1 : ℚ) :: List.replicate 3528 0], 3529⟩ [0]
      ((1 : ℚ) :: List.replicate 3528 0) rfl rfl rfl rfl (by norm_num) (by norm_num)
    rw [h, List.getD_cons_zero, List.getD_cons_zero,
      show (7 : ℚ) / 10 * 0 + 3 / 2 * 1 = 3 / 2 from by norm_num]
    have hc : clamp1 ((3 : ℚ) / 2) = 1 := by
      rw [clamp1, min_eq_left (by norm_num), max_eq_right (by norm_num)]
    rw [pcm16, hc, scaled, if_neg (by norm_num),
      show (1 : ℚ) * 32767 = ((32767 : ℤ) : ℚ) from by norm_num, truncQ_intCast,
      toInt16wrap_eq (by norm_num) (by norm_num)]
  · have hc : clamp1 ((7 : ℚ) / 10 * 0) = 0 := by
      rw [show (7 : ℚ) / 10 * 0 = 0 from by norm_num, clamp1,
        min_eq_right (by norm_num), max_eq_right (by norm_num)]
    rw [pcm16, hc, scaled, if_neg (by norm_num),
      show (0 : ℚ) * 32767 = ((0 : ℤ) : ℚ) from by norm_num, truncQ_intCast,
      toInt16wrap_eq (by norm_num) (by norm_num)]

/-- **C3 (amended).** Even when the vocal track's duration exceeds
150-160 ms (more than 3528 samples at 22050 Hz), *no* latency
compensation is applied: the vocal source is scheduled at offset 0,
simultaneously with the backing track, so the very first output frame is
the gain-weighted sum of the first samples of both tracks. -/
theorem claim_C3_amended (song voice : AudioBuffer) (sd vd : List ℚ)
    (hsr : song.sampleRate = 22050) (hvr : voice.sampleRate = 22050)
    (hsc : song.channels = [sd]) (hvc : voice.channels = [vd])
    (h0s : 0 < song.length) (hdur : 3528 < voice.length) :
    readS16 (mixAudio song voice) 44 =
      pcm16 ((7 / 10) * sd.getD 0 0 + (3 / 2) * vd.getD 0 0) :=
  mixAudio_first_sample song voice sd vd hsr hvr hsc hvc h0s (by omega)

/-- **C3 witness.** A 3529-sample vocal take (duration above 160 ms)
mixed with a 1-sample backing track: the hypotheses hold and the first
output frame mixes both first samples with no vocal delay. -/
theorem claim_C3_witness :
    3528 < 3529 ∧
      readS16 (mixAudio ⟨22050, [[(1 : ℚ) / 4]], 1⟩
          ⟨22050, [(1 : ℚ) :: List.replicate 3528 0], 3529⟩) 44 =
        pcm16 ((7 / 10) * ((1 : ℚ) / 4) + (3 / 2) * 1) :=
  ⟨by norm_num,
    claim_C3_amended ⟨22050, [[(1 : ℚ) / 4]], 1⟩
      ⟨22050, [(1 : ℚ) :: List.replicate 3528 0], 3529⟩ [(1 : ℚ) / 4]
      ((1 : ℚ) :: List.replicate 3528 0) rfl rfl rfl rfl (by norm_num) (by norm_num)⟩

/-! ## Claim C7 -/

/-- **C7 counterexample.** The claim states that for *every* mix of an
all-zero vocal with a constant-amplitude backing track, *every* output
sample equals `clamp(A * 0.7)` scaled to int16.  When the vocal track is
longer than the backing track, the output extends to the vocal length
and the samples past the backing track's end are silence, not
`0.7 * A`: with a 1-sample backing of amplitude 1/2 and a 2-sample
silent vocal, the second output frame (bytes 48-49) stores 0, while the
claimed value is `trunc(0.35 * 32767) = 11468`. -/
theorem claim_C7_cex :
    readS16 (mixAudio ⟨22050, [[(1 : ℚ) / 2]], 1⟩ ⟨22050, [[0, 0]], 2⟩) 48 = 0 ∧
      pcmVal ((7 / 10) * ((1 : ℚ) / 2)) = 11468 ∧ (0 : Int) ≠ 11468 := by
  refine ⟨?_, ?_, by decide⟩
  · have hact := readS16_encode
      (interleave (renderChannel ⟨22050, [[(1 : ℚ) / 2]], 1⟩ ⟨22050, [[0, 0]], 2⟩ 0
          (max (1 : Nat) 2))
        (renderChannel ⟨22050, [[(1 : ℚ) / 2]], 1⟩ ⟨22050, [[0, 0]], 2⟩ 1
          (max (1 : Nat) 2))) 2 targetRate 2
      (by
        rw [interleave_length, renderChannel_length, renderChannel_length]
        norm_num)
    rw [show (44 : Nat) + 2 * 2 = 48 from rfl] at hact
    have hil := interleave_getD
      (renderChannel ⟨22050, [[(1 : ℚ) / 2]], 1⟩ ⟨22050, [[0, 0]], 2⟩ 0 (max (1 : Nat) 2))
      (renderChannel ⟨22050, [[(1 : ℚ) / 2]], 1⟩ ⟨22050, [[0, 0]], 2⟩ 1 (max (1 : Nat) 2)) 1
      (by rw [renderChannel_length]; norm_num) (by rw [renderChannel_length]; norm_num)
    have hil1 :
        (interleave (renderChannel ⟨22050, [[(1 : ℚ) / 2]], 1⟩ ⟨22050, [[0, 0]], 2⟩ 0
            (max (1 : Nat) 2))
          (renderChannel ⟨22050, [[(1 : ℚ) / 2]], 1⟩ ⟨22050, [[0, 0]], 2⟩ 1
            (max (1 : Nat) 2))).getD 2 0 =
          (renderChannel ⟨22050, [[(1 : ℚ) / 2]], 1⟩ ⟨22050, [[0, 0]], 2⟩ 0
            (max (1 : Nat) 2)).getD 1 0 := hil.1
    have hch := renderChannel_getD ⟨22050, [[(1 : ℚ) / 2]], 1⟩ ⟨22050, [[0, 0]], 2⟩ 0
      (max (1 : Nat) 2) 1 (by norm_num)
    have hrs : renderSample ⟨22050, [[(1 : ℚ) / 2]], 1⟩ ⟨22050, [[0, 0]], 2⟩ 0 1 = 0 := by
      simp [renderSample, sourceSample, chanData, targetRate]
    show readS16 (encodeWAVOptimized
        (interleave (renderChannel ⟨22050, [[(1 : ℚ) / 2]], 1⟩ ⟨22050, [[0, 0]], 2⟩ 0
            (max (1 : Nat) 2))
          (renderChannel ⟨22050, [[(1 : ℚ) / 2]], 1⟩ ⟨22050, [[0, 0]], 2⟩ 1
            (max (1 : Nat) 2))) 2 targetRate) 48 = 0
    rw [hact, hil1, hch, hrs]
    have hc0 : clamp1 (0 : ℚ) = 0 := by
      rw [clamp1, min_eq_right (by norm_num), max_eq_right (by norm_num)]
    rw [pcm16, hc0, scaled, if_neg (by norm_num),
      show (0 : ℚ) * 32767 = ((0 : ℤ) : ℚ) from by norm_num, truncQ_intCast,
      toInt16wrap_eq (by norm_num) (by norm_num)]
  · have hprod : (7 : ℚ) / 10 * ((1 : ℚ) / 2) = 7 / 20 := by norm_num
    have hc : clamp1 ((7 : ℚ) / 20) = 7 / 20 := by
      rw [clamp1, min_eq_right (by norm_num), max_eq_right (by norm_num)]
    rw [hprod, pcmVal, hc, scaled, if_neg (by norm_num),
      show (7 : ℚ) / 20 * 32767 = ((229369 : ℕ) : ℚ) / ((20 : ℕ) : ℚ) from by push_cast; norm_num,
      truncQ_nonneg (by positivity), Rat.floor_natCast_div_natCast]
    decide

/-- **C7 (amended).** For every mix in which the vocal track decodes to
all-zero samples, the backing track decodes to samples of constant
amplitude `A`, both tracks are mono at the 22050 Hz target rate (where
playback is sample-exact), and the backing track is at least as long as
the vocal track (so the backing track governs the output), every output
sample equals `clamp(A * 0.7)` scaled to int16: backing gain 0.7 and
vocal gain 1.5 are applied per-source before per-sample summation, and
clamping happens only at the PCM-encoding step. -/
theorem claim_C7_amended (song voice : AudioBuffer) (A : ℚ) (sd vd : List ℚ)
    (hsr : song.sampleRate = 22050) (hvr : voice.sampleRate = 22050)
    (hsc : song.channels = [sd]) (hvc : voice.channels = [vd])
    (hsl : sd.length = song.length) (hvl : vd.length = voice.length)
    (hA : ∀ x ∈ sd, x = A) (hz : ∀ x ∈ vd, x = 0)
    (hlen : voice.length ≤ song.length) (k : Nat) (hk : k < 2 * song.length) :
    readS16 (mixAudio song voice) (44 + 2 * k) = pcmVal ((7 / 10) * A) := by
  have hmax : max song.length voice.length = song.length := max_eq_left hlen
  have hact := readS16_encode
    (interleave (renderChannel song voice 0 (max song.length voice.length))
      (renderChannel song voice 1 (max song.length voice.length))) 2 targetRate k
    (by
      rw [interleave_length, renderChannel_length, renderChannel_length, hmax]
      omega)
  have hi2 : k / 2 < song.length := by omega
  have hsample :
      (interleave (renderChannel song voice 0 (max song.length voice.length))
        (renderChannel song voice 1 (max song.length voice.length))).getD k 0 =
        (7 / 10) * A := by
    have hil := interleave_getD
      (renderChannel song voice 0 (max song.length voice.length))
      (renderChannel song voice 1 (max song.length voice.length)) (k / 2)
      (by rw [renderChannel_length]; omega) (by rw [renderChannel_length]; omega)
    have hrs := renderSample_const song voice A sd vd hsr hvr hsc hvc hsl hvl hA hz
    rcases Nat.even_or_odd k with ⟨j, hj⟩ | ⟨j, hj⟩
    · have hk2 : k = 2 * (k / 2) := by omega
      rw [hk2, hil.1, renderChannel_getD song voice 0 _ _ (by omega)]
      exact hrs 0 (k / 2) hi2
    · have hk2 : k = 2 * (k / 2) + 1 := by omega
      rw [hk2, hil.2, renderChannel_getD song voice 1 _ _ (by omega)]
      exact hrs 1 (k / 2) hi2
  show readS16 (encodeWAVOptimized
      (interleave (renderChannel song voice 0 (max song.length voice.length))
        (renderChannel song voice 1 (max song.length voice.length))) 2 targetRate)
      (44 + 2 * k) = _
  rw [hact, hsample, pcm16_eq_pcmVal]

/-- **C7 witness.** A 1-sample backing track of amplitude 1/2 with a
1-sample silent vocal: both output samples store
`clamp(0.35) scaled to int16`. -/
theorem claim_C7_witness :
    (∀ x ∈ [(1 : ℚ) / 2], x = 1 / 2) ∧ (∀ x ∈ [(0 : ℚ)], x = 0) ∧ (1 : Nat) ≤ 1 ∧
      (1 : Nat) < 2 * 1 ∧
      readS16 (mixAudio ⟨22050, [[(1 : ℚ) / 2]], 1⟩ ⟨22050, [[0]], 1⟩) (44 + 2 * 1) =
        pcmVal ((7 / 10) * ((1 : ℚ) / 2)) := by
  have hA : ∀ x ∈ [(1 : ℚ) / 2], x = 1 / 2 := by
    intro x hx
    rcases List.mem_cons.mp hx with rfl | hx2
    · rfl
    · simp at hx2
  have hz : ∀ x ∈ [(0 : ℚ)], x = 0 := by
    intro x hx
    rcases List.mem_cons.mp hx with rfl | hx2
    · rfl
    · simp at hx2
  exact ⟨hA, hz, by norm_num, by norm_num,
    claim_C7_amended ⟨22050, [[(1 : ℚ) / 2]], 1⟩ ⟨22050, [[0]], 1⟩ (1 / 2) [(1 : ℚ) / 2]
      [(0 : ℚ)] rfl rfl rfl rfl rfl rfl hA hz (by norm_num) 1 (by norm_num)⟩

end Karaoke
